import Mathlib

/-
  Verification of the rolland time-domain rail-vibration simulator.

  Shallow embedding over exact rational arithmetic of the track builder
  (track.py), arrangements (arrangement.py), grid and discretization
  (grid.py, discretization.py), boundary construction (boundary.py),
  solver state initialisation and excitation indexing (deflection.py,
  excitation.py) and frequency-domain postprocessing (postprocessing.py).
-/

namespace Rolland

/-- Python int() conversion of a rational: truncation toward zero. -/
def pyInt (q : ℚ) : ℤ := if 0 ≤ q then ⌊q⌋ else -⌊-q⌋

/-- Python round() of a rational: round half to even. -/
def pyRound (q : ℚ) : ℤ :=
  let f : ℤ := ⌊q⌋
  let r : ℚ := q - f
  if r < 1/2 then f
  else if 1/2 < r then f + 1
  else if f % 2 = 0 then f else f + 1

/-- Python floor division a // b on (exact) numbers, returned as a rational. -/
def floordivQ (a b : ℚ) : ℚ := (⌊a / b⌋ : ℤ)

/-- Python max() over a list of rationals (meaningful for nonempty lists;
the source raises on an empty argument, which callers below never pass). -/
def listMaxQ : List ℚ → ℚ
  | [] => 0
  | x :: xs => xs.foldl max x

/-- Entry i of numpy.linspace(a, b, n) (with the default inclusive endpoint). -/
def linspaceQ (a b : ℚ) (n : ℕ) (i : ℕ) : ℚ :=
  if n = 1 then a else a + (b - a) * i / ((n : ℚ) - 1)

/-- Rail record (components.py): bending-relevant scalars. -/
structure RailQ where
  E : ℚ
  Iyr : ℚ
  mr : ℚ
  dr : ℚ

/-- Discrete pad record: total stiffness and damping per direction
(the source stores two-element lists sp, dp and reads index 0). -/
structure DiscrPadQ where
  sp : ℚ × ℚ
  dp : ℚ × ℚ

/-- Sleeper record: lumped mass. -/
structure SleeperQ where
  ms : ℚ

/-- Ballast record: stiffness and damping per direction (index 0 is used). -/
structure BallastQ where
  sb : ℚ × ℚ
  db : ℚ × ℚ

/-! ## Track builder (track.py) -/

/-- Key insertion into a Python dict, modelled on its key list: an existing
key keeps its position, a new key is appended. -/
def dictInsertKey (ks : List ℚ) (x : ℚ) : List ℚ :=
  if x ∈ ks then ks else ks ++ [x]

/-- Key list of mount_prop built by
SimplePeriodicBallastedSingleRailTrack.calc_mount_prop (track.py):
for i in range(num_mount), insert the key float(Decimal(i) * Decimal(d))
(exact-decimal arithmetic, embedded as exact rational arithmetic). -/
def mountKeys (N : ℕ) (d : ℚ) : List ℚ :=
  (List.range N).foldl (fun ks i => dictInsertKey ks ((i : ℚ) * d)) []

/-- l_track = max(mount_prop.keys()) for a uniform periodic track. -/
def lTrack (N : ℕ) (d : ℚ) : ℚ := listMaxQ (mountKeys N d)

/-! ## Grid (grid.py / discretization.py calc_grid) -/

/-- Spatial step chosen by calc_grid: dx = 0.6 / (0.6 // dx_min), where
dx_min = bx * ((E * Iyr)/(6 * mr)) ** (1/4) * dt ** (1/2) is the stability
floor, taken here as a parameter since it is the only way calc_grid
consumes dt, bx and the rail constants. -/
def calcDx (dxmin : ℚ) : ℚ := (3/5) / floordivQ (3/5) dxmin

/-- Number of spatial steps: nx = int(l_track / dx) + 1. -/
def calcNx (l dx : ℚ) : ℤ := pyInt (l / dx) + 1

/-- Number of time steps: nt = int(req_simt / dt). -/
def calcNt (reqSimt dt : ℚ) : ℤ := pyInt (reqSimt / dt)

/-! ## Boundary (boundary.py, grid.py) -/

/-- Boundary length as derived in GridFDMStampka.__init__:
l_bound = n_bound * dx. -/
def gridLBound (nBound : ℕ) (dx : ℚ) : ℚ := (nBound : ℚ) * dx

/-- Entry i of the PML damping array of PMLStampka.__init__ (boundary.py):
with r = (E * Iyr) / mr * dt^2 / dx^4 and drbc = r / 2 * mr / dt, the array
is drbc * xbc^7 / (dx * n_bound)^7 over xbc = linspace(0, l_bound, n_bound). -/
def pmlStampka (E Iyr mr dt dx : ℚ) (nBound : ℕ) (lBound : ℚ) (i : ℕ) : ℚ :=
  let r : ℚ := (E * Iyr) / mr * dt ^ 2 / dx ^ 4
  let drbc : ℚ := r / 2 * mr / dt
  drbc * (linspaceQ 0 lBound nBound i) ^ 7 / (dx * (nBound : ℚ)) ^ 7

/-- Modelled from the spec: the method PMLRailDampVertic.pml referenced by
DiscretizationEBBVertic.calc_bound is absent from the sources (boundary.py
only contains PMLStampka); per spec section 4.2 it produces the damping ramp
p = d_max * x^alpha / l_bound^alpha with default exponent alpha = 7. -/
def pmlRailDampVertic (lBound : ℚ) (drbc : ℚ) (x : ℚ) : ℚ :=
  drbc * x ^ 7 / lBound ^ 7

/-! ## Property vectors (discretization.py) -/

/-- The six per-node property vectors of DiscretizationEBBVerticConst,
as functions of the node index. -/
structure PropVectors where
  dr : ℕ → ℚ
  sp : ℕ → ℚ
  dp : ℕ → ℚ
  ms : ℕ → ℚ
  sb : ℕ → ℚ
  db : ℕ → ℚ

/-- initialize_vectors: vec_dr = rail.dr everywhere, vec_sp = vec_dp =
vec_sb = vec_db = 0, vec_ms = 1 (ones instead of zeros to avoid division
by zero). -/
def initializeVectors (drail : ℚ) : PropVectors where
  dr := fun _ => drail
  sp := fun _ => 0
  dp := fun _ => 0
  ms := fun _ => 1
  sb := fun _ => 0
  db := fun _ => 0

/-- add_boundary_conditions: vec_dr[:n] += pml[::-1] then
vec_dr[nx-n:] += pml, where n is the pml size. -/
def addBoundaryConditions (nx nBound : ℕ) (pml : ℕ → ℚ) (v : PropVectors) :
    PropVectors :=
  let drLeft : ℕ → ℚ := fun i =>
    if i < nBound then v.dr i + pml (nBound - 1 - i) else v.dr i
  let drBoth : ℕ → ℚ := fun i =>
    if nx - nBound ≤ i ∧ i < nx then drLeft i + pml (i - (nx - nBound))
    else drLeft i
  { v with dr := drBoth }

/-- Grid index of a mounting position: x_ind = int(x / dx). -/
def mountIndex (dx x : ℚ) : ℕ := (pyInt (x / dx)).toNat

/-- One mounting entry of a discrete ballasted track:
position together with the pad and sleeper stored in mount_prop. -/
structure MountB where
  x : ℚ
  pad : DiscrPadQ
  sleeper : SleeperQ

/-- The per-mount assignment loop of build_discrete_ballasted_track:
for each mounting position, vec_sp[x_ind] = pad.sp[0] / dx,
vec_dp[x_ind] = pad.dp[0] / dx, vec_ms[x_ind] = sleeper.ms / dx. -/
def assignMountVectors (dx : ℚ) (mounts : List MountB) (v : PropVectors) :
    PropVectors :=
  mounts.foldl (fun w m =>
    { w with
      sp := Function.update w.sp (mountIndex dx m.x) (m.pad.sp.1 / dx)
      dp := Function.update w.dp (mountIndex dx m.x) (m.pad.dp.1 / dx)
      ms := Function.update w.ms (mountIndex dx m.x) (m.sleeper.ms / dx) }) v

/-- build_discrete_ballasted_track: the mount loop followed by
vec_sb += ballast.sb[0] / dx and vec_db += ballast.db[0] / dx, which the
source applies to the whole vectors (every node). -/
def buildDiscreteBallastedTrack (dx : ℚ) (mounts : List MountB)
    (ballast : BallastQ) (v : PropVectors) : PropVectors :=
  let w := assignMountVectors dx mounts v
  { w with
    sb := fun i => w.sb i + ballast.sb.1 / dx
    db := fun i => w.db i + ballast.db.1 / dx }

/-! ## Excitation indexing (deflection.py, excitation.py) -/

/-- Index of the excitation point for a scalar x_excit:
excitation_index = int(x_excit / dx). -/
def excitationIndexOf (xExcit dx : ℚ) : ℤ := pyInt (xExcit / dx)

/-- The excitation node actually used at time step t inside
DeflectionEBBVertic.calc_deflection:
excitation_now = excitation_index + round(t / 50). -/
def excitationNow (xExcit dx : ℚ) (t : ℕ) : ℤ :=
  excitationIndexOf xExcit dx + pyRound ((t : ℚ) / 50)

/-! ## Deflection buffer (deflection.py) -/

/-- initialize_start_values: an uninitialised 2*nx by nt+1 array (entries g)
whose first two columns are overwritten with zeros. -/
def initializeStartValues (nx nt : ℕ) (g : ℕ → ℕ → ℚ) :
    Matrix (Fin (2 * nx)) (Fin (nt + 1)) ℚ :=
  fun i j => if (j : ℕ) < 2 then 0 else g i j

/-! ## Matrix assembly (discretization.py build_matrix)

A, B and C are 2*nx by 2*nx matrices of four nx by nx diagonal or
pentadiagonal blocks; they are embedded as entry functions. -/

/-- The pentadiagonal 4th-derivative stencil matrix D with diagonals
[1, -4, 6, -4, 1] at offsets [-2, -1, 0, 1, 2]. -/
def matD (i j : ℕ) : ℚ :=
  if i = j then 6
  else if i + 1 = j ∨ j + 1 = i then -4
  else if i + 2 = j ∨ j + 2 = i then 1
  else 0

/-- Identity matrix entry. -/
def eyeQ (i j : ℕ) : ℚ := if i = j then 1 else 0

/-- Entry (i, j) of the coefficient matrix A of build_matrix, with
r = (E * Iyr) * dt^2 / (2 * mr * dx^4). -/
def buildMatrixA (E Iyr mr dt dx : ℚ) (nx : ℕ) (v : PropVectors)
    (i j : ℕ) : ℚ :=
  let r : ℚ := (E * Iyr) * dt ^ 2 / (2 * mr * dx ^ 4)
  if i < nx ∧ j < nx then
    r * matD i j + eyeQ i j +
      (if i = j then dt / mr * (v.dr i + v.dp i) + dt ^ 2 / (2 * mr) * v.sp i
       else 0)
  else if i < nx ∧ nx ≤ j then
    (if i = j - nx then -(dt / mr) * v.dp i + -(dt ^ 2) / (2 * mr) * v.sp i
     else 0)
  else if nx ≤ i ∧ j < nx then
    (if i - nx = j then
       -dt * v.dp (i - nx) / v.ms (i - nx) +
         -(dt ^ 2) / (2 * v.ms (i - nx)) * v.sp (i - nx)
     else 0)
  else
    eyeQ (i - nx) (j - nx) +
      (if i = j then
         dt * ((v.dp (i - nx) + v.db (i - nx)) / v.ms (i - nx)) +
           dt ^ 2 / (2 * v.ms (i - nx)) * (v.sp (i - nx) + v.sb (i - nx))
       else 0)

/-- Entry (i, j) of the coefficient matrix B of build_matrix. -/
def buildMatrixB (mr dt : ℚ) (nx : ℕ) (v : PropVectors) (i j : ℕ) : ℚ :=
  if i < nx ∧ j < nx then
    2 * eyeQ i j + (if i = j then dt / mr * (v.dr i + v.dp i) else 0)
  else if i < nx ∧ nx ≤ j then
    (if i = j - nx then -(dt / mr) * v.dp i else 0)
  else if nx ≤ i ∧ j < nx then
    (if i - nx = j then -dt * v.dp (i - nx) / v.ms (i - nx) else 0)
  else
    2 * eyeQ (i - nx) (j - nx) +
      (if i = j then dt * (v.db (i - nx) + v.dp (i - nx)) / v.ms (i - nx)
       else 0)

/-- Entry (i, j) of the coefficient matrix C of build_matrix, with
r = (E * Iyr) * dt^2 / (2 * mr * dx^4). -/
def buildMatrixC (E Iyr mr dt dx : ℚ) (nx : ℕ) (v : PropVectors)
    (i j : ℕ) : ℚ :=
  let r : ℚ := (E * Iyr) * dt ^ 2 / (2 * mr * dx ^ 4)
  if i < nx ∧ j < nx then
    -(eyeQ i j + (if i = j then dt ^ 2 / (2 * mr) * v.sp i else 0) +
      r * matD i j)
  else if i < nx ∧ nx ≤ j then
    (if i = j - nx then dt ^ 2 / (2 * mr) * v.sp i else 0)
  else if nx ≤ i ∧ j < nx then
    (if i - nx = j then dt ^ 2 / (2 * v.ms (i - nx)) * v.sp (i - nx) else 0)
  else
    -(eyeQ (i - nx) (j - nx) +
      (if i = j then
         dt ^ 2 * (v.sp (i - nx) + v.sb (i - nx)) / (2 * v.ms (i - nx))
       else 0))

/-! ## Constructor pipeline of DiscretizationEBBVerticConst (C5) -/

/-- The assembled state produced by DiscretizationEBBVerticConst.__init__. -/
structure DiscrState where
  nt : ℤ
  dx : ℚ
  nx : ℤ
  nBound : ℤ
  vectors : PropVectors
  A : ℕ → ℕ → ℚ
  B : ℕ → ℕ → ℚ
  C : ℕ → ℕ → ℚ

/-- validate_discretization of DiscretizationEBBVerticConst: the method body
is empty (and the method is never invoked by the constructor), so the list
of configuration errors it reports is empty. -/
def validateDiscretization : List String := []

/-- The constructor pipeline of DiscretizationEBBVerticConst.__init__ for a
simple periodic ballasted track: calc_grid, calc_bound, initialize_vectors,
add_boundary_conditions, build_superstructure_vectors, build_matrix, in that
order.  No step checks nx, dx or l_track, so the only error surface left is
the track-type dispatch of build_superstructure_vectors, which recognises
this track type.  The stability floor dx_min is passed as a parameter (see
calcDx). -/
def discretizationInitPeriodicBallasted (rail : RailQ) (pad : DiscrPadQ)
    (sleeper : SleeperQ) (ballast : BallastQ) (d : ℚ) (N : ℕ)
    (lBound dxmin dt reqSimt : ℚ) : Except String DiscrState :=
  let keys := mountKeys N d
  let l := lTrack N d
  let dx := calcDx dxmin
  let nx := calcNx l dx
  let nBound := pyInt (lBound / dx)
  let r : ℚ := (rail.E * rail.Iyr) / rail.mr * dt ^ 2 / dx ^ 4
  let drbc : ℚ := r / 2 * rail.mr / dt
  let pml : ℕ → ℚ := fun i =>
    pmlRailDampVertic lBound drbc (linspaceQ 0 lBound nBound.toNat i)
  let v0 := initializeVectors rail.dr
  let v1 := addBoundaryConditions nx.toNat nBound.toNat pml v0
  let mounts := keys.map (fun x => MountB.mk x pad sleeper)
  let v2 := buildDiscreteBallastedTrack dx mounts ballast v1
  Except.ok
    { nt := calcNt reqSimt dt
      dx := dx
      nx := nx
      nBound := nBound
      vectors := v2
      A := buildMatrixA rail.E rail.Iyr rail.mr dt dx nx.toNat v2
      B := buildMatrixB rail.mr dt nx.toNat v2
      C := buildMatrixC rail.E rail.Iyr rail.mr dt dx nx.toNat v2 }

/-! ## Arrangements (arrangement.py) -/

/-- Loop body of PeriodicArrangement.generate for a list item: while
c < num_mount, yield every element of the list, incrementing c per element;
the while condition is re-checked only after a full pass.  fuel bounds the
number of passes (num_mount passes always suffice when the item list is
nonempty; for an empty list the source loops forever, which the fuel cuts
off and which no claim concerns). -/
def perGenAux (items : List α) : ℕ → ℕ → ℕ → List α
  | 0, _, _ => []
  | fuel + 1, c, n =>
    if c < n then items ++ perGenAux items fuel (c + items.length) n else []

/-- PeriodicArrangement.generate(num_mount) for a list item, materialised. -/
def periodicGenerate (items : List α) (n : ℕ) : List α :=
  perGenAux items n 0 n

/-- Python zip of three iterables: the list of triples, truncated to the
shortest input. -/
def zip3 (as : List α) (bs : List β) (cs : List γ) : List (α × β × γ) :=
  as.zip (bs.zip cs)

/-- Error text of Python for unpacking a 3-tuple into four names. -/
def unpackErrorMsg : String :=
  "ValueError: not enough values to unpack, expected 4, got 3"

/-- The loop of ArrangedBallastedSingleRailTrack.calc_mount_prop:
for s, p, b, d in zip(sleeper.generate(n), pad.generate(n),
distance.generate(n)).  Each zip element is a 3-tuple, so the 4-name loop
target raises ValueError on the first iteration; an empty zip finishes the
loop with the accumulated dict unchanged. -/
def arrangedBallastedMountLoop
    (triples : List (SleeperQ × DiscrPadQ × ℚ)) (x0 : ℚ)
    (acc : List (ℚ × DiscrPadQ × SleeperQ)) :
    Except String (List (ℚ × DiscrPadQ × SleeperQ)) :=
  match triples, x0 with
  | [], _ => Except.ok acc
  | _ :: _, _ => Except.error unpackErrorMsg

/-- ArrangedBallastedSingleRailTrack.calc_mount_prop: run the unpacking loop
over the zipped generators starting from x = 0 and an empty mount dict. -/
def arrangedBallastedCalcMountProp (sleepers : List SleeperQ)
    (pads : List DiscrPadQ) (dists : List ℚ) :
    Except String (List (ℚ × DiscrPadQ × SleeperQ)) :=
  arrangedBallastedMountLoop (zip3 sleepers pads dists) 0 []

/-- Insertion into a Python dict modelled as an association list: an
existing key is overwritten in place, a new key is appended. -/
def dictInsert (m : List (ℚ × α)) (k : ℚ) (val : α) : List (ℚ × α) :=
  if m.any (fun kv => kv.1 = k) then
    m.map (fun kv => if kv.1 = k then (k, val) else kv)
  else m ++ [(k, val)]

/-- The loop of ArrangedSlabSingleRailTrack.calc_mount_prop:
for p, d in zip(pad.generate(n), distance.generate(n)):
mount_prop[x] = p; x += d. -/
def arrangedSlabLoop : List (DiscrPadQ × ℚ) → ℚ → List (ℚ × DiscrPadQ) →
    List (ℚ × DiscrPadQ)
  | [], _, m => m
  | (p, dst) :: rest, x, m => arrangedSlabLoop rest (x + dst) (dictInsert m x p)

/-- ArrangedSlabSingleRailTrack.calc_mount_prop with periodic arrangements
for pads and distances. -/
def arrangedSlabCalcMountProp (pads : List DiscrPadQ) (dists : List ℚ)
    (n : ℕ) : List (ℚ × DiscrPadQ) :=
  arrangedSlabLoop ((periodicGenerate pads n).zip (periodicGenerate dists n))
    0 []

/-- Example pads (three distinct discrete pads) for an arranged track. -/
def padsEx : List DiscrPadQ :=
  [⟨(1, 0), (2, 0)⟩, ⟨(3, 0), (4, 0)⟩, ⟨(5, 0), (6, 0)⟩]

/-- Example mounting distances (three distinct positive values). -/
def distsEx : List ℚ := [1/2, 3/5, 7/10]

/-! ## Postprocessing (postprocessing.py) -/

/-- The first samples // 2 entries of numpy.fft.fftfreq(samples, dt):
entry k is k / (samples * dt). -/
def fftfreqHalf (n : ℕ) (dt : ℚ) : List ℚ :=
  (List.range (n / 2)).map (fun k => (k : ℚ) / ((n : ℚ) * dt))

/-- Spectrum half of PostProcessing.fast_fourier_tr: the library transform
fft (numpy.fft.fft, taken as a parameter) scaled by 2 / samples, with a
rectangular (all-ones) window, sliced to the one-sided first half;
the frequency half is fftfreqHalf. -/
def fastFourierTr {K : Type} [Field K] (fft : List K → List K)
    (tsignal : List K) : List K :=
  ((fft tsignal).map (fun z => (2 / (tsignal.length : K)) * z)).take
    (tsignal.length / 2)

/-- Numpy boolean-mask selection a[mask] along a list: keep the entries
whose mask bit is set. -/
def maskSelect {α : Type} : List Bool → List α → List α
  | true :: m, x :: xs => x :: maskSelect m xs
  | false :: m, _ :: xs => maskSelect m xs
  | _, _ => []

/-- The frequency mask of Response.calculate_response:
(fftfre > f_min) and (fftfre <= f_max). -/
def freqMask (fmin fmax fq : ℚ) : Bool := decide (fmin < fq ∧ fq ≤ fmax)

/-- Retained outputs of Response.calculate_response for one response row. -/
structure ResponseResult (K : Type) where
  freq : List ℚ
  rez : List K
  mob : List K
  accel : List K

/-- Response.calculate_response for a single response row: force FFT
computed once, deflection-row FFT, receptance = ufft / ffft, mobility =
1j * fftfre * 2 * pi * rez, accelerance = -((fftfre * 2 * pi)^2) * rez,
all masked to f_min < f <= f_max.  The imaginary unit and pi are the
parameters I and piK; frequencies are cast from their exact values. -/
def calculateResponse {K : Type} [Field K] (ratCast : ℚ → K)
    (fft : List K → List K) (I piK : K) (dt fmin fmax : ℚ)
    (force defl : List K) : ResponseResult K :=
  let fftfre := fftfreqHalf force.length dt
  let ffft := fastFourierTr fft force
  let ufft := fastFourierTr fft defl
  let rezFull := List.zipWith (fun u f => u / f) ufft ffft
  let mobFull :=
    List.zipWith (fun fq z => I * ratCast fq * 2 * piK * z) fftfre rezFull
  let accelFull :=
    List.zipWith (fun fq z => -((ratCast fq * 2 * piK) ^ 2) * z)
      fftfre rezFull
  let mask := fftfre.map (fun fq => freqMask fmin fmax fq)
  { freq := maskSelect mask fftfre
    rez := maskSelect mask rezFull
    mob := maskSelect mask mobFull
    accel := maskSelect mask accelFull }

/-! ## Helper lemmas -/

lemma le_foldl_max_init (xs : List ℚ) (x : ℚ) : x ≤ xs.foldl max x := by
  induction xs generalizing x with
  | nil => exact le_refl x
  | cons y ys ih => exact le_trans (le_max_left x y) (ih (max x y))

lemma le_foldl_max_mem {xs : List ℚ} {b : ℚ} (hb : b ∈ xs) (x : ℚ) :
    b ≤ xs.foldl max x := by
  induction xs generalizing x with
  | nil => cases hb
  | cons y ys ih =>
    rcases List.mem_cons.mp hb with h | h
    · subst h
      exact le_trans (le_max_right x b) (le_foldl_max_init ys (max x b))
    · exact ih h (max x y)

lemma foldl_max_le {xs : List ℚ} {x a : ℚ} (hx : x ≤ a)
    (h : ∀ b ∈ xs, b ≤ a) : xs.foldl max x ≤ a := by
  induction xs generalizing x with
  | nil => exact hx
  | cons y ys ih =>
    exact ih (max_le hx (h y (List.mem_cons_self y ys))) fun b hb =>
      h b (List.mem_cons_of_mem y hb)

lemma listMaxQ_eq_of {l : List ℚ} {a : ℚ} (ha : a ∈ l)
    (h : ∀ b ∈ l, b ≤ a) : listMaxQ l = a := by
  match l, ha with
  | x :: xs, ha =>
    refine le_antisymm ?_ ?_
    · exact foldl_max_le (h x (List.mem_cons_self x xs)) fun b hb =>
        h b (List.mem_cons_of_mem x hb)
    · rcases List.mem_cons.mp ha with rfl | ha
      · exact le_foldl_max_init xs a
      · exact le_foldl_max_mem ha x

lemma mountKeys_eq_map {d : ℚ} (hd : d ≠ 0) (N : ℕ) :
    mountKeys N d = (List.range N).map (fun i : ℕ => (i : ℚ) * d) := by
  induction N with
  | zero => rfl
  | succ n ih =>
    have hstep : mountKeys (n + 1) d =
        dictInsertKey (mountKeys n d) ((n : ℚ) * d) := by
      simp [mountKeys, List.range_succ, List.foldl_append]
    have hnotmem : ((n : ℚ) * d) ∉
        (List.range n).map (fun i : ℕ => (i : ℚ) * d) := by
      intro hmem
      rcases List.mem_map.mp hmem with ⟨i, hi, hei⟩
      have hin : (i : ℚ) = (n : ℚ) := mul_right_cancel₀ hd hei
      have hin2 : i = n := by exact_mod_cast hin
      have hlt := List.mem_range.mp hi
      omega
    rw [hstep, ih, dictInsertKey, if_neg hnotmem, List.range_succ,
      List.map_append, List.map_singleton]

/-! ## Claim theorems -/

/-- C1: the claim states that for a stationary Gaussian-impulse excitation
the node at which the force is applied equals int(x_excit / dx) at every
time step.  The solver instead applies the force at
excitation_index + round(t / 50) for every excitation type, so at the
UIC60-style configuration x_excit = 45.3, dx = 0.6 the node used at time
step 26 is 76 while int(x_excit / dx) = 75: the excitation node does change
over time. -/
theorem gaussian_excitation_node_drift :
    excitationIndexOf (453/10) (3/5) = 75 ∧
    excitationNow (453/10) (3/5) 26 = 76 := by
  constructor
  · norm_num [excitationIndexOf, pyInt]
  · norm_num [excitationNow, excitationIndexOf, pyInt, pyRound]

/-- C3: for the PML of PMLStampka with the grid relation
l_bound = n_bound * dx of GridFDMStampka, every entry i < n_bound of the
damping array equals d_max * x_i ^ 7 / l_bound ^ 7 with
d_max = r * mr / (2 * dt), r = E * Iyr * dt ^ 2 / (mr * dx ^ 4),
x_i = linspace(0, l_bound, n_bound), and n_bound = floor(l_bound / dx). -/
theorem pml_damping_vector_formula (E Iyr mr dt dx : ℚ) (nB : ℕ)
    (hdx : 0 < dx) (i : ℕ) (hi : i < nB) :
    pmlStampka E Iyr mr dt dx nB (gridLBound nB dx) i =
      E * Iyr * dt ^ 2 / (mr * dx ^ 4) * mr / (2 * dt) *
        (linspaceQ 0 (gridLBound nB dx) nB i) ^ 7 / (gridLBound nB dx) ^ 7 ∧
    (nB : ℤ) = ⌊gridLBound nB dx / dx⌋ := by
  constructor
  · simp only [pmlStampka, gridLBound, div_eq_mul_inv, mul_inv, mul_pow]
    ring
  · rw [gridLBound, mul_div_assoc, div_self (ne_of_gt hdx), mul_one,
      Int.floor_natCast]

/-- Witness for pml_damping_vector_formula at a concrete input. -/
theorem pml_damping_vector_formula_witness :
    (0 : ℚ) < 1 ∧ 1 < 2 ∧
    (pmlStampka 1 1 1 1 1 2 (gridLBound 2 1) 1 =
      1 * 1 * 1 ^ 2 / (1 * 1 ^ 4) * 1 / (2 * 1) *
        (linspaceQ 0 (gridLBound 2 1) 2 1) ^ 7 / (gridLBound 2 1) ^ 7 ∧
     ((2 : ℕ) : ℤ) = ⌊gridLBound 2 1 / 1⌋) :=
  ⟨by norm_num, by norm_num,
    pml_damping_vector_formula 1 1 1 1 1 2 (by norm_num) 1 (by norm_num)⟩

/-- C4: for every stability floor dx_min with 0 < dx_min <= 0.6 the chosen
spatial step dx = 0.6 / (0.6 // dx_min) satisfies dx >= dx_min, 0.6 / dx is
a (positive) integer, and nx = floor(l_track / dx) + 1. -/
theorem grid_spacing_stability_and_alignment (dxmin l : ℚ)
    (h0 : 0 < dxmin) (h1 : dxmin ≤ 3/5) (hl : 0 ≤ l) :
    dxmin ≤ calcDx dxmin ∧
    (∃ k : ℤ, 0 < k ∧ ((3 : ℚ)/5) / calcDx dxmin = (k : ℚ)) ∧
    calcNx l (calcDx dxmin) = ⌊l / calcDx dxmin⌋ + 1 := by
  have hk1 : 1 ≤ ⌊((3 : ℚ)/5) / dxmin⌋ := by
    refine Int.le_floor.mpr ?_
    rw [show (((1 : ℤ)) : ℚ) = 1 by norm_num, le_div_iff₀ h0]
    linarith
  have hkQ : (0 : ℚ) < ((⌊((3 : ℚ)/5) / dxmin⌋ : ℤ) : ℚ) := by
    exact_mod_cast lt_of_lt_of_le Int.zero_lt_one hk1
  have hdx : calcDx dxmin = ((3 : ℚ)/5) / ((⌊((3 : ℚ)/5) / dxmin⌋ : ℤ) : ℚ) :=
    rfl
  have hdxpos : 0 < calcDx dxmin := by
    rw [hdx]
    exact div_pos (by norm_num) hkQ
  refine ⟨?_, ⟨⌊((3 : ℚ)/5) / dxmin⌋, ?_, ?_⟩, ?_⟩
  · rw [hdx, le_div_iff₀ hkQ]
    have hfl : ((⌊((3 : ℚ)/5) / dxmin⌋ : ℤ) : ℚ) ≤ ((3 : ℚ)/5) / dxmin :=
      Int.floor_le _
    calc dxmin * ((⌊((3 : ℚ)/5) / dxmin⌋ : ℤ) : ℚ)
        ≤ dxmin * (((3 : ℚ)/5) / dxmin) :=
          mul_le_mul_of_nonneg_left hfl (le_of_lt h0)
      _ = (3 : ℚ)/5 := by
          rw [mul_comm, div_mul_cancel₀ _ (ne_of_gt h0)]
  · exact_mod_cast hk1
  · rw [hdx, div_div_eq_mul_div, mul_comm, mul_div_assoc,
      div_self (by norm_num : ((3 : ℚ)/5) ≠ 0), mul_one]
  · have hq : 0 ≤ l / calcDx dxmin := div_nonneg hl (le_of_lt hdxpos)
    show pyInt (l / calcDx dxmin) + 1 = ⌊l / calcDx dxmin⌋ + 1
    rw [pyInt, if_pos hq]

/-- Witness for grid_spacing_stability_and_alignment at dx_min = 1/4,
l_track = 1. -/
theorem grid_spacing_stability_and_alignment_witness :
    ((0 : ℚ) < 1/4 ∧ (1/4 : ℚ) ≤ 3/5 ∧ (0 : ℚ) ≤ 1) ∧
    ((1/4 : ℚ) ≤ calcDx (1/4) ∧
     (∃ k : ℤ, 0 < k ∧ ((3 : ℚ)/5) / calcDx (1/4) = (k : ℚ)) ∧
     calcNx 1 (calcDx (1/4)) = ⌊(1 : ℚ) / calcDx (1/4)⌋ + 1) :=
  ⟨⟨by norm_num, by norm_num, by norm_num⟩,
    grid_spacing_stability_and_alignment (1/4) 1 (by norm_num) (by norm_num)
      (by norm_num)⟩

/-- C6: for every uniform periodic track with mount distance d > 0 and
count N >= 1, the mount map holds exactly the N positions i * d, which are
non-negative, strictly increasing and deduplicated, each within 10^-12 of
i * d (here exactly equal, as the source computes them in exact decimal
arithmetic), and l_track = max = (N - 1) * d. -/
theorem periodic_mount_map_positions (N : ℕ) (d : ℚ) (hN : 1 ≤ N)
    (hd : 0 < d) :
    mountKeys N d = (List.range N).map (fun i : ℕ => (i : ℚ) * d) ∧
    (mountKeys N d).length = N ∧
    (mountKeys N d).Pairwise (fun a b => a < b) ∧
    (∀ x ∈ mountKeys N d, 0 ≤ x) ∧
    (mountKeys N d).Nodup ∧
    (∀ i, i < N → |(mountKeys N d).getD i 0 - (i : ℚ) * d| ≤ 1 / 10 ^ 12) ∧
    lTrack N d = ((N : ℚ) - 1) * d := by
  have hd0 : d ≠ 0 := ne_of_gt hd
  have heq := mountKeys_eq_map hd0 N
  have hpw : (mountKeys N d).Pairwise (fun a b => a < b) := by
    rw [heq]
    refine List.Pairwise.map _ (fun a b hab => ?_) (List.pairwise_lt_range N)
    exact mul_lt_mul_of_pos_right (by exact_mod_cast hab) hd
  refine ⟨heq, by rw [heq]; simp, hpw, ?_, ?_, ?_, ?_⟩
  · intro x hx
    rw [heq] at hx
    rcases List.mem_map.mp hx with ⟨i, _, rfl⟩
    exact mul_nonneg (Nat.cast_nonneg i) (le_of_lt hd)
  · exact hpw.imp (fun hab => ne_of_lt hab)
  · intro i hi
    have h1 : (mountKeys N d).getD i 0 = (i : ℚ) * d := by
      rw [heq]
      rw [List.getD_eq_getElem _ _ (by simpa using hi)]
      simp
    rw [h1, sub_self, abs_zero]
    positivity
  · have hmem : ((N - 1 : ℕ) : ℚ) * d ∈ mountKeys N d := by
      rw [heq]
      exact List.mem_map_of_mem _ (List.mem_range.mpr (by omega))
    have hub : ∀ b ∈ mountKeys N d, b ≤ ((N - 1 : ℕ) : ℚ) * d := by
      intro b hb
      rw [heq] at hb
      rcases List.mem_map.mp hb with ⟨i, hi, rfl⟩
      have hle : i ≤ N - 1 := by
        have := List.mem_range.mp hi
        omega
      exact mul_le_mul_of_nonneg_right (by exact_mod_cast hle) (le_of_lt hd)
    have hcast : ((N - 1 : ℕ) : ℚ) = (N : ℚ) - 1 := by
      have h1N : (1 : ℕ) ≤ N := hN
      push_cast [Nat.cast_sub h1N]
      ring
    calc lTrack N d = ((N - 1 : ℕ) : ℚ) * d := listMaxQ_eq_of hmem hub
      _ = ((N : ℚ) - 1) * d := by rw [hcast]

/-- Witness for periodic_mount_map_positions at N = 3, d = 1/2. -/
theorem periodic_mount_map_positions_witness :
    ((1 : ℕ) ≤ 3 ∧ (0 : ℚ) < 1/2) ∧
    (mountKeys 3 (1/2) = (List.range 3).map (fun i : ℕ => (i : ℚ) * (1/2)) ∧
     (mountKeys 3 (1/2)).length = 3 ∧
     (mountKeys 3 (1/2)).Pairwise (fun a b => a < b) ∧
     (∀ x ∈ mountKeys 3 (1/2), 0 ≤ x) ∧
     (mountKeys 3 (1/2)).Nodup ∧
     (∀ i, i < 3 →
       |(mountKeys 3 (1/2)).getD i 0 - (i : ℚ) * (1/2)| ≤ 1 / 10 ^ 12) ∧
     lTrack 3 (1/2) = ((3 : ℚ) - 1) * (1/2)) :=
  ⟨⟨by norm_num, by norm_num⟩,
    by
      have h := periodic_mount_map_positions 3 (1/2) (by norm_num)
        (by norm_num)
      simpa using h⟩

/-- C7: the deflection buffer has shape 2 * nx by nt + 1 (the type of
initializeStartValues) and both of its first two columns are zero,
whatever the uninitialised contents g of numpy.empty were. -/
theorem deflection_buffer_initial_columns_zero (nx nt : ℕ) (g : ℕ → ℕ → ℚ)
    (i : Fin (2 * nx)) (j : Fin (nt + 1)) (hj : (j : ℕ) < 2) :
    initializeStartValues nx nt g i j = 0 := by
  simp [initializeStartValues, hj]

/-- Witness for deflection_buffer_initial_columns_zero at nx = 1, nt = 1,
column 1, with nonzero fill values. -/
theorem deflection_buffer_initial_columns_zero_witness :
    (((1 : Fin (1 + 1)) : ℕ) < 2) ∧
    initializeStartValues 1 1 (fun _ _ => 5) 0 1 = 0 :=
  ⟨by decide,
    deflection_buffer_initial_columns_zero 1 1 (fun _ _ => 5) 0 1 (by decide)⟩

/-! ## Property-vector lemmas for the discrete ballasted build (C2) -/

lemma assignMountVectors_sb (dx : ℚ) (mounts : List MountB)
    (v : PropVectors) : (assignMountVectors dx mounts v).sb = v.sb := by
  induction mounts generalizing v with
  | nil => rfl
  | cons m rest ih => exact ih _

lemma assignMountVectors_db (dx : ℚ) (mounts : List MountB)
    (v : PropVectors) : (assignMountVectors dx mounts v).db = v.db := by
  induction mounts generalizing v with
  | nil => rfl
  | cons m rest ih => exact ih _

lemma assignMountVectors_cons (dx : ℚ) (m0 : MountB) (rest : List MountB)
    (v : PropVectors) :
    assignMountVectors dx (m0 :: rest) v =
      assignMountVectors dx rest
        { v with
          sp := Function.update v.sp (mountIndex dx m0.x) (m0.pad.sp.1 / dx)
          dp := Function.update v.dp (mountIndex dx m0.x) (m0.pad.dp.1 / dx)
          ms := Function.update v.ms (mountIndex dx m0.x)
            (m0.sleeper.ms / dx) } := rfl

lemma assignMountVectors_notMem (dx : ℚ) (mounts : List MountB)
    (v : PropVectors) (j : ℕ)
    (hj : ∀ m ∈ mounts, mountIndex dx m.x ≠ j) :
    (assignMountVectors dx mounts v).sp j = v.sp j ∧
    (assignMountVectors dx mounts v).dp j = v.dp j ∧
    (assignMountVectors dx mounts v).ms j = v.ms j := by
  induction mounts generalizing v with
  | nil => exact ⟨rfl, rfl, rfl⟩
  | cons m0 rest ih =>
    have hm : mountIndex dx m0.x ≠ j := hj m0 (List.mem_cons_self m0 rest)
    have hrest : ∀ m2 ∈ rest, mountIndex dx m2.x ≠ j := fun m2 h2 =>
      hj m2 (List.mem_cons_of_mem m0 h2)
    rw [assignMountVectors_cons]
    rcases ih _ hrest with ⟨h1, h2, h3⟩
    rw [h1, h2, h3]
    refine ⟨?_, ?_, ?_⟩ <;>
      exact Function.update_noteq (Ne.symm hm) _ _

lemma assignMountVectors_mem (dx : ℚ) (mounts : List MountB)
    (v : PropVectors)
    (hnd : (mounts.map (fun m => mountIndex dx m.x)).Nodup) :
    ∀ m ∈ mounts,
      (assignMountVectors dx mounts v).sp (mountIndex dx m.x) =
        m.pad.sp.1 / dx ∧
      (assignMountVectors dx mounts v).dp (mountIndex dx m.x) =
        m.pad.dp.1 / dx ∧
      (assignMountVectors dx mounts v).ms (mountIndex dx m.x) =
        m.sleeper.ms / dx := by
  induction mounts generalizing v with
  | nil => intro m hm; cases hm
  | cons m0 rest ih =>
    intro m hm
    have hnd2 : (rest.map fun mm => mountIndex dx mm.x).Nodup :=
      (List.nodup_cons.mp hnd).2
    have hnotin : mountIndex dx m0.x ∉
        rest.map (fun mm => mountIndex dx mm.x) := (List.nodup_cons.mp hnd).1
    rcases List.mem_cons.mp hm with rfl | hm2
    · have hrest : ∀ m2 ∈ rest, mountIndex dx m2.x ≠ mountIndex dx m.x := by
        intro m2 h2 heq
        exact hnotin (heq ▸ List.mem_map_of_mem _ h2)
      rw [assignMountVectors_cons]
      rcases assignMountVectors_notMem dx rest _ (mountIndex dx m.x)
        hrest with ⟨h1, h2, h3⟩
      rw [h1, h2, h3]
      refine ⟨?_, ?_, ?_⟩ <;> exact Function.update_same _ _ _
    · rw [assignMountVectors_cons]
      exact ih _ hnd2 m hm2

/-- Example discrete pad. -/
def padEx : DiscrPadQ := ⟨(1, 0), (1, 0)⟩

/-- Example sleeper. -/
def sleeperEx : SleeperQ := ⟨1⟩

/-- Example ballast with nonzero vertical stiffness and damping. -/
def ballastEx : BallastQ := ⟨(1, 0), (1, 0)⟩

/-- Mount list of a SimplePeriodicBallastedSingleRailTrack with
distance 3/5 and two mounts, all carrying the example pad and sleeper. -/
def mountsEx : List MountB :=
  (mountKeys 2 (3/5)).map (fun x => MountB.mk x padEx sleeperEx)

/-- C2 counterexample: on the discrete ballasted track mountsEx with
dx = 3/10, node 1 is not a mount node (the mount nodes are 0 and 2), yet
the assembled ballast stiffness vector is nonzero there, refuting the
claim that ballast stiffness remains zero at non-mount nodes. -/
theorem discrete_ballasted_ballast_uniform_counterexample :
    (∀ m ∈ mountsEx, mountIndex (3/10) m.x ≠ 1) ∧
    (buildDiscreteBallastedTrack (3/10) mountsEx ballastEx
      (initializeVectors 0)).sb 1 ≠ 0 := by
  have hkeys : mountKeys 2 (3/5) = [0, 3/5] := by
    norm_num [mountKeys, List.range_succ, dictInsertKey]
  have hmi0 : mountIndex (3/10) 0 = 0 := by norm_num [mountIndex, pyInt]
  have hmi1 : mountIndex (3/10) (3/5) = 2 := by
      norm_num [mountIndex, pyInt]
      decide
  constructor
  · intro m hm
    rw [mountsEx, hkeys] at hm
    rcases List.mem_map.mp hm with ⟨x, hx, rfl⟩
    rcases List.mem_cons.mp hx with rfl | hx2
    · simp [hmi0]
    · rcases List.mem_cons.mp hx2 with rfl | hx3
      · simp [hmi1]
      · cases hx3
  · have hsb : (buildDiscreteBallastedTrack (3/10) mountsEx ballastEx
        (initializeVectors 0)).sb 1 =
        (initializeVectors (0 : ℚ)).sb 1 + ballastEx.sb.1 / (3/10) := by
      show (assignMountVectors (3/10) mountsEx (initializeVectors 0)).sb 1 +
        ballastEx.sb.1 / (3/10) =
        (initializeVectors (0 : ℚ)).sb 1 + ballastEx.sb.1 / (3/10)
      rw [assignMountVectors_sb]
    rw [hsb]
    norm_num [initializeVectors, ballastEx]

/-- C2 amended: for a discrete ballasted track build with distinct mount
node indices, the pad stiffness, pad damping and sleeper mass vectors are
assigned only at the mount-node indices int(x_mount / dx), scaled by 1/dx
(elsewhere s_p = d_p = 0 and m_s = 1), while the ballast stiffness and
damping are added uniformly at every node as sb/dx and db/dx. -/
theorem discrete_ballasted_vector_assignment (dx : ℚ) (mounts : List MountB)
    (ballast : BallastQ) (drail : ℚ)
    (hnd : (mounts.map (fun m => mountIndex dx m.x)).Nodup) :
    (∀ j, (∀ m ∈ mounts, mountIndex dx m.x ≠ j) →
      (buildDiscreteBallastedTrack dx mounts ballast
        (initializeVectors drail)).sp j = 0 ∧
      (buildDiscreteBallastedTrack dx mounts ballast
        (initializeVectors drail)).dp j = 0 ∧
      (buildDiscreteBallastedTrack dx mounts ballast
        (initializeVectors drail)).ms j = 1) ∧
    (∀ m ∈ mounts,
      (buildDiscreteBallastedTrack dx mounts ballast
        (initializeVectors drail)).sp (mountIndex dx m.x) = m.pad.sp.1 / dx ∧
      (buildDiscreteBallastedTrack dx mounts ballast
        (initializeVectors drail)).dp (mountIndex dx m.x) = m.pad.dp.1 / dx ∧
      (buildDiscreteBallastedTrack dx mounts ballast
        (initializeVectors drail)).ms (mountIndex dx m.x) =
          m.sleeper.ms / dx) ∧
    (∀ j,
      (buildDiscreteBallastedTrack dx mounts ballast
        (initializeVectors drail)).sb j = ballast.sb.1 / dx ∧
      (buildDiscreteBallastedTrack dx mounts ballast
        (initializeVectors drail)).db j = ballast.db.1 / dx) := by
  refine ⟨?_, ?_, ?_⟩
  · intro j hj
    exact assignMountVectors_notMem dx mounts (initializeVectors drail) j hj
  · exact assignMountVectors_mem dx mounts (initializeVectors drail) hnd
  · intro j
    constructor
    · show (assignMountVectors dx mounts (initializeVectors drail)).sb j +
        ballast.sb.1 / dx = ballast.sb.1 / dx
      rw [assignMountVectors_sb]
      show (0 : ℚ) + ballast.sb.1 / dx = ballast.sb.1 / dx
      rw [zero_add]
    · show (assignMountVectors dx mounts (initializeVectors drail)).db j +
        ballast.db.1 / dx = ballast.db.1 / dx
      rw [assignMountVectors_db]
      show (0 : ℚ) + ballast.db.1 / dx = ballast.db.1 / dx
      rw [zero_add]

/-- Witness for discrete_ballasted_vector_assignment on the example track
with dx = 3/10. -/
theorem discrete_ballasted_vector_assignment_witness :
    (mountsEx.map (fun m => mountIndex (3/10) m.x)).Nodup ∧
    (∀ j, (∀ m ∈ mountsEx, mountIndex (3/10) m.x ≠ j) →
      (buildDiscreteBallastedTrack (3/10) mountsEx ballastEx
        (initializeVectors 0)).sp j = 0 ∧
      (buildDiscreteBallastedTrack (3/10) mountsEx ballastEx
        (initializeVectors 0)).dp j = 0 ∧
      (buildDiscreteBallastedTrack (3/10) mountsEx ballastEx
        (initializeVectors 0)).ms j = 1) ∧
    (∀ m ∈ mountsEx,
      (buildDiscreteBallastedTrack (3/10) mountsEx ballastEx
        (initializeVectors 0)).sp (mountIndex (3/10) m.x) =
          m.pad.sp.1 / (3/10) ∧
      (buildDiscreteBallastedTrack (3/10) mountsEx ballastEx
        (initializeVectors 0)).dp (mountIndex (3/10) m.x) =
          m.pad.dp.1 / (3/10) ∧
      (buildDiscreteBallastedTrack (3/10) mountsEx ballastEx
        (initializeVectors 0)).ms (mountIndex (3/10) m.x) =
          m.sleeper.ms / (3/10)) ∧
    (∀ j,
      (buildDiscreteBallastedTrack (3/10) mountsEx ballastEx
        (initializeVectors 0)).sb j = ballastEx.sb.1 / (3/10) ∧
      (buildDiscreteBallastedTrack (3/10) mountsEx ballastEx
        (initializeVectors 0)).db j = ballastEx.db.1 / (3/10)) := by
  have hnd : (mountsEx.map (fun m => mountIndex (3/10) m.x)).Nodup := by
    have hkeys : mountKeys 2 (3/5) = [0, 3/5] := by
      norm_num [mountKeys, List.range_succ, dictInsertKey]
    have hmi0 : mountIndex (3/10) 0 = 0 := by norm_num [mountIndex, pyInt]
    have hmi1 : mountIndex (3/10) (3/5) = 2 := by
      norm_num [mountIndex, pyInt]
      decide
    rw [mountsEx, hkeys]
    simp [hmi0, hmi1]
  exact ⟨hnd,
    discrete_ballasted_vector_assignment (3/10) mountsEx ballastEx 0 hnd⟩

/-- Example rail with E = 1, Iyr = 6, mr = 1, dr = 0, so that the stability
floor evaluates to the square root of dt times bx. -/
def railEx : RailQ := ⟨1, 6, 1, 0⟩

/-- C5: the claim states that nx < 5 (among other conditions) is reported
as a configuration error before matrix assembly.  The constructor performs
no validation at all: validate_discretization has an empty body and is
never called, and on a periodic ballasted track with d = 3/5, N = 4,
dx_min = 3/5 (hence dx = 3/5 and nx = 4 < 5, and l_track = 9/5 exceeds no
check either) the full pipeline still returns an assembled state. -/
theorem discretization_init_reports_no_config_error :
    validateDiscretization = [] ∧
    (discretizationInitPeriodicBallasted railEx padEx sleeperEx ballastEx
      (3/5) 4 (3/5) (3/5) 1 1).isOk = true ∧
    calcNx (lTrack 4 (3/5)) (calcDx (3/5)) = 4 ∧ (4 : ℤ) < 5 := by
  refine ⟨rfl, rfl, ?_, by norm_num⟩
  have hkeys : mountKeys 4 (3/5) = [0, 3/5, 6/5, 9/5] := by
    norm_num [mountKeys, List.range_succ, dictInsertKey]
  have hl : lTrack 4 (3/5) = 9/5 := by
    rw [lTrack, hkeys]
    norm_num [listMaxQ]
  have hdx : calcDx (3/5) = 3/5 := by
    norm_num [calcDx, floordivQ]
  rw [hl, hdx]
  norm_num [calcNx, pyInt]

/-! ## Postprocessing lemmas (C8) -/

lemma maskSelect_map_self {α : Type} (p : α → Bool) (xs : List α) :
    maskSelect (xs.map p) xs = xs.filter p := by
  induction xs with
  | nil => rfl
  | cons x xs ih =>
    cases hp : p x <;> simp [maskSelect, List.filter, hp, ih]

lemma maskSelect_zipWith {α β γ : Type} (f : α → β → γ) :
    ∀ (m : List Bool) (xs : List α) (ys : List β),
      maskSelect m (List.zipWith f xs ys) =
        List.zipWith f (maskSelect m xs) (maskSelect m ys)
  | [], xs, ys => by cases xs <;> cases ys <;> rfl
  | b :: m, [], ys => by cases b <;> cases ys <;> rfl
  | b :: m, x :: xs, [] => by
    cases b <;> simp [maskSelect, List.zipWith_nil_right]
  | b :: m, x :: xs, y :: ys => by
    cases b <;> simp [maskSelect, maskSelect_zipWith f m xs ys]

/-- C8: the retained frequencies of calculate_response are exactly the
one-sided FFT frequencies with f_min < f <= f_max, and on the retained
lists mobility = I * f * 2 * pi * receptance and accelerance =
-((f * 2 * pi)^2) * receptance, where the receptance list is the masked
pointwise quotient of the deflection-row FFT by the force FFT. -/
theorem response_retained_frequencies_and_relations {K : Type} [Field K]
    (rc : ℚ → K) (fft : List K → List K) (I piK : K)
    (dt fmin fmax : ℚ) (force defl : List K) :
    (calculateResponse rc fft I piK dt fmin fmax force defl).freq =
      (fftfreqHalf force.length dt).filter (freqMask fmin fmax) ∧
    (calculateResponse rc fft I piK dt fmin fmax force defl).mob =
      List.zipWith (fun fq z => I * rc fq * 2 * piK * z)
        (calculateResponse rc fft I piK dt fmin fmax force defl).freq
        (calculateResponse rc fft I piK dt fmin fmax force defl).rez ∧
    (calculateResponse rc fft I piK dt fmin fmax force defl).accel =
      List.zipWith (fun fq z => -((rc fq * 2 * piK) ^ 2) * z)
        (calculateResponse rc fft I piK dt fmin fmax force defl).freq
        (calculateResponse rc fft I piK dt fmin fmax force defl).rez ∧
    (calculateResponse rc fft I piK dt fmin fmax force defl).rez =
      maskSelect ((fftfreqHalf force.length dt).map (freqMask fmin fmax))
        (List.zipWith (fun u f => u / f) (fastFourierTr fft defl)
          (fastFourierTr fft force)) := by
  refine ⟨?_, ?_, ?_, rfl⟩
  · exact maskSelect_map_self (freqMask fmin fmax) (fftfreqHalf force.length dt)
  · exact maskSelect_zipWith _ _ _ _
  · exact maskSelect_zipWith _ _ _ _

/-! ## Arrangement lemmas (C9, C10) -/

lemma periodicGenerate_ne_nil {α : Type} {items : List α} (h : items ≠ [])
    (n : ℕ) (hn : 1 ≤ n) : periodicGenerate items n ≠ [] := by
  cases n with
  | zero => omega
  | succ k =>
    show perGenAux items (k + 1) 0 (k + 1) ≠ []
    rw [perGenAux, if_pos (Nat.succ_pos k)]
    intro hc
    exact h (List.append_eq_nil.mp hc).1

lemma ceilDiv_step {L m : ℕ} (hL : 0 < L) (hm : 1 ≤ m) :
    (m + L - 1) / L = (m - L + L - 1) / L + 1 := by
  rcases le_or_lt m L with hle | hlt
  · have h1 : m - L = 0 := Nat.sub_eq_zero_of_le hle
    have h2 : (0 + L - 1) / L = 0 := Nat.div_eq_of_lt (by omega)
    have h3 : (m + L - 1) / L = 1 := by
      apply Nat.div_eq_of_lt_le
      · omega
      · omega
    rw [h1, h2, h3]
  · have h2 : m + L - 1 = (m - 1) + L := by omega
    have h3 : m - L + L - 1 = m - 1 := by omega
    rw [h2, h3, Nat.add_div_right _ hL]

lemma perGenAux_length {α : Type} (items : List α) (h : items ≠ []) :
    ∀ (fuel c n : ℕ), n ≤ c + fuel * items.length →
      (perGenAux items fuel c n).length =
        items.length * ((n - c + items.length - 1) / items.length) := by
  have hL : 0 < items.length := List.length_pos.mpr h
  intro fuel
  induction fuel with
  | zero =>
    intro c n hcn
    have htriv : n - c = 0 := by omega
    have hdiv : (0 + items.length - 1) / items.length = 0 :=
      Nat.div_eq_of_lt (by omega)
    show ([] : List α).length = _
    rw [htriv, hdiv, List.length_nil, Nat.mul_zero]
  | succ fuel ih =>
    intro c n hcn
    rw [Nat.succ_mul] at hcn
    by_cases hcn2 : c < n
    · have hunf : perGenAux items (fuel + 1) c n =
          items ++ perGenAux items fuel (c + items.length) n := by
        rw [perGenAux, if_pos hcn2]
      rw [hunf, List.length_append]
      have hrec : n ≤ (c + items.length) + fuel * items.length := by omega
      rw [ih _ _ hrec]
      have hm : 1 ≤ n - c := by omega
      have hsub : n - (c + items.length) = n - c - items.length := by omega
      rw [hsub, ceilDiv_step hL hm, Nat.mul_add, Nat.mul_one]
      ring
    · have hunf : perGenAux items (fuel + 1) c n = [] := by
        rw [perGenAux, if_neg hcn2]
      have htriv : n - c = 0 := by omega
      have hdiv : (0 + items.length - 1) / items.length = 0 :=
        Nat.div_eq_of_lt (by omega)
      rw [hunf, htriv, hdiv, List.length_nil, Nat.mul_zero]

lemma periodicGenerate_length {α : Type} {items : List α} (h : items ≠ [])
    (n : ℕ) :
    (periodicGenerate items n).length =
      items.length * ((n + items.length - 1) / items.length) := by
  have hL : 0 < items.length := List.length_pos.mpr h
  have hcn : n ≤ 0 + n * items.length := by
    have := Nat.le_mul_of_pos_right n hL
    omega
  have hx := perGenAux_length items h n 0 n hcn
  simpa [periodicGenerate] using hx

/-- C9: for every arranged ballasted track built from nonempty periodic
arrangements with num_mount >= 1, calc_mount_prop unpacks four loop names
from a zip of only three generators and therefore raises the Python
unpacking ValueError on the first iteration, before any mount position is
stored. -/
theorem arranged_ballasted_unpack_error (ss : List SleeperQ)
    (ps : List DiscrPadQ) (ds : List ℚ) (n : ℕ) (hn : 1 ≤ n)
    (hs : ss ≠ []) (hp : ps ≠ []) (hd : ds ≠ []) :
    arrangedBallastedCalcMountProp (periodicGenerate ss n)
      (periodicGenerate ps n) (periodicGenerate ds n) =
      Except.error unpackErrorMsg := by
  rcases List.exists_cons_of_ne_nil (periodicGenerate_ne_nil hs n hn)
    with ⟨a, as, ha⟩
  rcases List.exists_cons_of_ne_nil (periodicGenerate_ne_nil hp n hn)
    with ⟨b, bs, hb⟩
  rcases List.exists_cons_of_ne_nil (periodicGenerate_ne_nil hd n hn)
    with ⟨c, cs, hc⟩
  rw [arrangedBallastedCalcMountProp, ha, hb, hc]
  rfl

/-- Witness for arranged_ballasted_unpack_error with singleton
arrangements and num_mount = 1. -/
theorem arranged_ballasted_unpack_error_witness :
    ((1 : ℕ) ≤ 1 ∧ ([⟨1⟩] : List SleeperQ) ≠ [] ∧
      ([padEx] : List DiscrPadQ) ≠ [] ∧ ([1/2] : List ℚ) ≠ []) ∧
    arrangedBallastedCalcMountProp (periodicGenerate [(⟨1⟩ : SleeperQ)] 1)
      (periodicGenerate [padEx] 1) (periodicGenerate [(1/2 : ℚ)] 1) =
      Except.error unpackErrorMsg :=
  ⟨⟨le_refl 1, by simp, by simp, by simp⟩,
    arranged_ballasted_unpack_error [⟨1⟩] [padEx] [1/2] 1 (le_refl 1)
      (by simp) (by simp) (by simp)⟩

/-- C10: PeriodicArrangement.generate over a list of length L always
finishes the current pass of the list, yielding exactly
L * ceil(n / L) items, strictly more than n whenever L does not divide n;
consequently an arranged track built from such arrangements can hold more
than num_mount mounting positions, as the concrete example with three pads,
three distances and num_mount = 4 (six stored mounts) shows. -/
theorem periodic_arrangement_generate_overrun {α : Type} (items : List α)
    (n : ℕ) (h : items ≠ []) :
    (periodicGenerate items n).length =
      items.length * ((n + items.length - 1) / items.length) ∧
    (1 ≤ n → ¬ items.length ∣ n → n < (periodicGenerate items n).length) ∧
    4 < (arrangedSlabCalcMountProp padsEx distsEx 4).length := by
  have hL : 0 < items.length := List.length_pos.mpr h
  have hlen := periodicGenerate_length h n
  refine ⟨hlen, ?_, ?_⟩
  · intro hn hdvd
    rw [hlen]
    have hceil : (n + items.length - 1) / items.length =
        n / items.length + 1 := by
      have h2 : n + items.length - 1 = (n - 1) + items.length := by omega
      rw [h2, Nat.add_div_right _ hL]
      have hn1 : n = (n - 1) + 1 := by omega
      have hsd := Nat.succ_div (n - 1) items.length
      rw [← hn1, if_neg hdvd] at hsd
      omega
    rw [hceil, Nat.mul_add, Nat.mul_one]
    have hmlt : n % items.length < items.length := Nat.mod_lt n hL
    calc n = items.length * (n / items.length) + n % items.length :=
          (Nat.div_add_mod n items.length).symm
      _ < items.length * (n / items.length) + items.length :=
          Nat.add_lt_add_left hmlt _
  · norm_num [arrangedSlabCalcMountProp, periodicGenerate, perGenAux,
      padsEx, distsEx, arrangedSlabLoop, dictInsert]

/-- Witness for periodic_arrangement_generate_overrun on a two-element
item list with n = 3. -/
theorem periodic_arrangement_generate_overrun_witness :
    (([0, 1] : List ℚ) ≠ [] ∧ (1 : ℕ) ≤ 3 ∧
      ¬ ([0, 1] : List ℚ).length ∣ 3) ∧
    ((periodicGenerate ([0, 1] : List ℚ) 3).length =
      ([0, 1] : List ℚ).length *
        ((3 + ([0, 1] : List ℚ).length - 1) / ([0, 1] : List ℚ).length) ∧
     (1 ≤ 3 → ¬ ([0, 1] : List ℚ).length ∣ 3 →
       3 < (periodicGenerate ([0, 1] : List ℚ) 3).length) ∧
     4 < (arrangedSlabCalcMountProp padsEx distsEx 4).length) :=
  ⟨⟨by simp, by norm_num, by norm_num⟩,
    periodic_arrangement_generate_overrun ([0, 1] : List ℚ) 3 (by simp)⟩

end Rolland
